import Mathlib

/-!
Verification of the SSHD configuration parser and comparator of
sysconfig-inspector, a shallow embedding of
src/sysconfig_inspector/sshd.py (classes SSHDInspector, SSHDConfigCleaner,
SSHDConfigComparator) and src/sysconfig_inspector/ssh.py (class SSHInspector).

Conventions of the embedding:
* Python values flowing through the parser are ints, bools, strings or None;
  they are modelled by the closed sum `Value`, and Python `==` by `pyEq`
  (in Python `1 == True` holds, since bool is a subclass of int).
* Python dicts are association lists with unique keys in insertion order;
  `dictGet` is dict lookup, `dictSet` is `d[k] = v` (replace in place,
  else append), `hasKey` is `k in d`.
* String helpers mirror the Python methods used by the source:
  `str.split(None, maxsplit)`, `str.strip()`, `str.strip(chr)`,
  `str.lower()` (the sources only rely on ASCII behaviour),
  `int(...)` (sign plus base-10 digits; the underscore digit grouping
  Python also accepts is not modelled, no line of the sources nor any
  claim depends on it).
* sshd.py's parser can raise to the caller (unpacking the `None` returned
  by `_parse_subsystem_line` / `_parse_acceptenv_line` on malformed lines,
  and `parts[1]` on a criteria-less Match line); it is embedded in
  `Except PyErr`.  ssh.py's parser is total and is embedded as a plain
  function, with the filesystem as an explicit environment `FS` and a
  fuel parameter standing for the (unguarded) recursion depth of
  `Include` resolution.
-/

namespace SCI

/-- The whitespace characters `str.split(None)`, `str.strip()` split on.
Python uses the full Unicode whitespace set; every whitespace character
appearing in the sources and tests is one of these four. -/
def isPyWs (c : Char) : Bool :=
  c = ' ' || c = '\t' || c = '\n' || c = '\r'

/-- Python `str.strip()` on an explicit character list. -/
def pyStripList (cs : List Char) : List Char :=
  ((cs.dropWhile isPyWs).reverse.dropWhile isPyWs).reverse

/-- Python `str.strip()`. -/
def pyStrip (s : String) : String :=
  String.mk (pyStripList s.data)

/-- Python `str.strip(chr(34))`: removes all leading and trailing double
quotes (the source calls `.strip(chr(34))` with a one-character argument,
which strips every occurrence at either end, not just one pair). -/
def pyStripQuotes (s : String) : String :=
  String.mk (((s.data.dropWhile (fun c => c = '"')).reverse.dropWhile
    (fun c => c = '"')).reverse)

/-- ASCII lowering of one character; Python `str.lower()` is Unicode
aware but the sources only lower directive words and yes/no values. -/
def asciiLower (c : Char) : Char :=
  if 'A' ≤ c && c ≤ 'Z' then Char.ofNat (c.toNat + 32) else c

/-- Python `str.lower()` (ASCII fragment). -/
def pyLower (s : String) : String :=
  String.mk (s.data.map asciiLower)

/-- Python `str.split(None, maxsplit)` on character lists: leading
whitespace is skipped, tokens are maximal whitespace-free runs, and once
`maxsplit` splits were made the remainder (with its leading whitespace
dropped but trailing whitespace kept) is the final element; a remainder
that is all whitespace yields no element. -/
def pySplitWsList (maxsplit : Nat) (cs : List Char) : List (List Char) :=
  let cs' := cs.dropWhile isPyWs
  if cs'.isEmpty then []
  else
    match maxsplit with
    | 0 => [cs']
    | m + 1 =>
      cs'.takeWhile (fun c => !(isPyWs c)) ::
        pySplitWsList m (cs'.dropWhile (fun c => !(isPyWs c)))

/-- Python `str.split(None, maxsplit)`. -/
def pySplitWs (s : String) (maxsplit : Nat) : List String :=
  (pySplitWsList maxsplit s.data).map String.mk

/-- Accumulate base-10 digits, most significant first. -/
def digitsToNat : List Char → Nat → Nat
  | [], acc => acc
  | c :: rest, acc => digitsToNat rest (acc * 10 + (c.toNat - 48))

/-- Python `int(s)` for base 10 on a character list: surrounding
whitespace is ignored, an optional single sign is allowed, and the rest
must be a non-empty run of ASCII digits. -/
def pyIntList (cs : List Char) : Option Int :=
  let cs := pyStripList cs
  match cs with
  | '-' :: rest =>
    if !rest.isEmpty && rest.all Char.isDigit then
      some (-(digitsToNat rest 0 : Int))
    else Option.none
  | '+' :: rest =>
    if !rest.isEmpty && rest.all Char.isDigit then
      some ((digitsToNat rest 0 : Int))
    else Option.none
  | _ =>
    if !cs.isEmpty && cs.all Char.isDigit then
      some ((digitsToNat cs 0 : Int))
    else Option.none

/-- Python `int(s)`; `Option.none` models the `ValueError` branch. -/
def pyInt (s : String) : Option Int :=
  pyIntList s.data

/-- The Python values the parser stores: `int | bool | str | None`. -/
inductive Value where
  | int (n : Int)
  | bool (b : Bool)
  | str (s : String)
  | none
deriving DecidableEq, Repr

/-- Python `==` on the values above.  In Python `bool` is a subclass of
`int`, so `1 == True` and `0 == False`; `None` equals only `None`;
values of unrelated types are unequal. -/
def pyEq : Value → Value → Bool
  | Value.int m, Value.int n => m == n
  | Value.bool a, Value.bool b => a == b
  | Value.str a, Value.str b => a == b
  | Value.int m, Value.bool b => m == (if b then (1 : Int) else 0)
  | Value.bool b, Value.int m => (if b then (1 : Int) else 0) == m
  | Value.none, Value.none => true
  | _, _ => false

/-- Dict lookup (`d[k]` / `d.get(k)`): the key occurs at most once in a
Python dict; on general association lists this returns the first hit. -/
def dictGet : List (String × α) → String → Option α
  | [], _ => Option.none
  | (k, v) :: rest, key => if k = key then some v else dictGet rest key

/-- Python `key in d`. -/
def hasKey (d : List (String × α)) (k : String) : Bool :=
  (dictGet d k).isSome

/-- Python `d[k] = v`: replace the value in place if the key exists,
otherwise append the pair (dicts preserve first-insertion order). -/
def dictSet (d : List (String × α)) (key : String) (v : α) : List (String × α) :=
  if hasKey d key then
    d.map (fun p => if p.1 = key then (key, v) else p)
  else d ++ [(key, v)]

/-- Keys of a dict, in insertion order. -/
def keysOf (d : List (String × α)) : List String :=
  d.map Prod.fst

/-- Stand-in for `set(xs) | set(ys)` followed by iteration.  Python's
set iteration order is unspecified; the embedding fixes the
first-appearance order (all of `xs`, then the members of `ys` not in
`xs`).  Both operands are key views of Python dicts, hence duplicate
free, so no deduplication within one operand is needed.  No claim
depends on the chosen order. -/
def pyUnion (xs ys : List String) : List String :=
  xs ++ ys.filter (fun k => !(xs.contains k))

/-- One `Match` block: `{"criterium": ..., "settings": {...}}` (the
source spells the key `criterium`). -/
structure MatchBlock where
  criterium : String
  settings : List (String × Value)
deriving DecidableEq, Repr

/-- A parsed configuration.  The Python parser returns a single dict in
which the reserved key `"Match"` maps to the list of match blocks and is
present exactly when that list is non-empty; the embedding keeps the
block list as a separate field (`matchBlocks = []` encodes the absent
`"Match"` key) and `directives` holds all other keys. -/
structure Config where
  directives : List (String × Value)
  matchBlocks : List MatchBlock
deriving DecidableEq, Repr

/-- Python `s.startswith(chr(35))`: the first character is `#`. -/
def startsWithHash (s : String) : Bool :=
  match s.data with
  | '#' :: _ => true
  | _ => false

/-- SSHDConfigCleaner.cleanse_lines of sshd.py, identical to
SSHInspector._cleanse_config_lines of ssh.py: drop lines that are
whitespace-only, then drop lines whose stripped form starts with `#`.
The kept lines are passed through unchanged. -/
def cleanse_lines (raw : List String) : List String :=
  let lines := raw.filter (fun l => pyStrip l != "")
  lines.filter (fun l => !(startsWithHash (pyStrip l)))

/-- Shared `_get_directive_type`: classify a line by its lowered first
word as `match`, `include` or `other`. -/
def get_directive_type (line : String) : String :=
  let firstWord := if pyStrip line = "" then "" else (pySplitWs (pyLower line) 1).headD ""
  if firstWord = "match" then "match"
  else if firstWord = "include" then "include"
  else "other"

/-- Equality of embedded outcomes (used to evaluate the sshd.py parser,
which is fallible) is decidable. -/
instance instDecEqExcept {ε α : Type} [DecidableEq ε] [DecidableEq α] :
    DecidableEq (Except ε α) := fun a b =>
  match a, b with
  | Except.error e, Except.error f =>
    if h : e = f then Decidable.isTrue (congrArg Except.error h)
    else Decidable.isFalse (fun hh => h (Except.error.inj hh))
  | Except.ok x, Except.ok y =>
    if h : x = y then Decidable.isTrue (congrArg Except.ok h)
    else Decidable.isFalse (fun hh => h (Except.ok.inj hh))
  | Except.error _, Except.ok _ => Decidable.isFalse (fun hh => Except.noConfusion hh)
  | Except.ok _, Except.error _ => Decidable.isFalse (fun hh => Except.noConfusion hh)

/-- Python exceptions the sshd.py parser can raise to its caller. -/
inductive PyErr where
  /-- `TypeError: cannot unpack non-iterable NoneType object`, raised at
  `key, value = self._parse_directive_line(line)` when the directive
  helper fell off its end and returned `None`. -/
  | typeError
  /-- `IndexError: list index out of range`, raised at `parts[1]` in
  `_extract_match_criteria` for a `Match` line with no criteria. -/
  | indexError
deriving DecidableEq, Repr

/-- SSHDInspector._parse_subsystem_line: three tokens give the composite
key `"Subsystem <name>"` and the path as value; any other token count
falls off the end of the Python function, returning `None`
(`Option.none` here), which the callers then fail to unpack. -/
def parse_subsystem_line_sshd (line : String) : Option (String × Value) :=
  match pySplitWs line 2 with
  | [a, b, c] => some (a ++ " " ++ b, Value.str (pyStrip c))
  | _ => Option.none

/-- SSHDInspector._parse_acceptenv_line: two tokens give the key and the
raw remainder string; one token falls off the end (returns `None`). -/
def parse_acceptenv_line_sshd (line : String) : Option (String × Value) :=
  match pySplitWs line 1 with
  | [a, b] => some (pyStrip a, Value.str (pyStrip b))
  | _ => Option.none

/-- Type coercion of a generic directive value in both variants: try
`int(...)`, else case-insensitive `yes`/`no` to booleans, else keep the
string. -/
def coerceValue (raw : String) : Value :=
  match pyInt raw with
  | some n => Value.int n
  | Option.none =>
    if pyLower raw = "yes" then Value.bool true
    else if pyLower raw = "no" then Value.bool false
    else Value.str raw

/-- SSHDInspector._parse_directive_line: dispatch on the lowered first
word (`subsystem` / `acceptenv` special cases), else split into key and
raw value; the raw value is stripped, unquoted and coerced.  A line with
a single token maps the key to Python `None` (`Value.none`).  The
function is only ever applied to cleansed (non-blank) lines, so the
`[0]` index on the split cannot fail. -/
def parse_directive_line_sshd (line : String) : Option (String × Value) :=
  let directive := (pySplitWs (pyLower line) 1).headD ""
  if directive = "subsystem" then parse_subsystem_line_sshd line
  else if directive = "acceptenv" then parse_acceptenv_line_sshd line
  else
    match pySplitWs line 1 with
    | [k, v] => some (pyStrip k, coerceValue (pyStripQuotes (pyStrip v)))
    | [k] => some (pyStrip k, Value.none)
    | _ => Option.none

/-- SSHInspector._parse_subsystem_line (ssh.py): as the sshd.py variant,
but a malformed line returns the pair `("", "")` instead of `None`. -/
def parse_subsystem_line_ssh (line : String) : String × Value :=
  match pySplitWs line 2 with
  | [a, b, c] => (a ++ " " ++ b, Value.str (pyStrip c))
  | _ => ("", Value.str "")

/-- SSHInspector._parse_acceptenv_line (ssh.py). -/
def parse_acceptenv_line_ssh (line : String) : String × Value :=
  match pySplitWs line 1 with
  | [a, b] => (pyStrip a, Value.str (pyStrip b))
  | _ => ("", Value.str "")

/-- SSHInspector._parse_directive_line (ssh.py): total; a single-token
line maps the key to `True`, and the unreachable zero-token case returns
`("", "")`. -/
def parse_directive_line_ssh (line : String) : String × Value :=
  let directive := (pySplitWs (pyLower line) 1).headD ""
  if directive = "subsystem" then parse_subsystem_line_ssh line
  else if directive = "acceptenv" then parse_acceptenv_line_ssh line
  else
    match pySplitWs line 1 with
    | [k, v] => (pyStrip k, coerceValue (pyStripQuotes (pyStrip v)))
    | [k] => (pyStrip k, Value.bool true)
    | _ => ("", Value.str "")

/-- SSHDInspector._extract_match_criteria: `line.split(None, 1)[1].strip()`;
a `Match` line with nothing after the keyword makes `parts[1]` raise
`IndexError`. -/
def extract_match_criteria_sshd (line : String) : Except PyErr String :=
  match pySplitWs line 1 with
  | [_, rest] => Except.ok (pyStrip rest)
  | _ => Except.error PyErr.indexError

/-- SSHDInspector._handle_global_directive: parse the line and record the
pair unless the key is falsy or already present (first definition wins).
Unpacking the `None` returned for a malformed Subsystem/AcceptEnv line
raises `TypeError`. -/
def handle_global_directive_sshd (line : String) (parsed : List (String × Value)) :
    Except PyErr (List (String × Value)) :=
  match parse_directive_line_sshd line with
  | Option.none => Except.error PyErr.typeError
  | some (k, v) =>
    Except.ok (if k ≠ "" && !(hasKey parsed k) then parsed ++ [(k, v)] else parsed)

/-- Settings accumulation of SSHDInspector._build_match_block: each line
is parsed and, when the key is truthy, assigned with `settings[key] = value`
(so a duplicate key inside one block keeps the LAST value). -/
def build_settings_sshd : List String → List (String × Value) →
    Except PyErr (List (String × Value))
  | [], s => Except.ok s
  | l :: rest, s =>
    match parse_directive_line_sshd l with
    | Option.none => Except.error PyErr.typeError
    | some (k, v) => build_settings_sshd rest (if k ≠ "" then dictSet s k v else s)

/-- SSHDInspector._build_match_block. -/
def build_match_block_sshd (criteria : String) (ls : List String) :
    Except PyErr MatchBlock :=
  (build_settings_sshd ls []).map (fun s => MatchBlock.mk criteria s)

/-- Loop of SSHDInspector._parse_sshd_config_lines over the cleansed
lines, carrying the growing global dict, the closed match blocks, the
open criteria (Python `current_match_criteria`, `Option.none` for its
`None`) and the buffered lines of the open block.  Although
`_get_directive_type` can answer `include`, this loop only tests for
`match`, so an `Include` line is handled as an ordinary global directive
and `_parse_included_files` is never invoked (it is dead code in
sshd.py). -/
def parse_sshd_config_lines_loop :
    List String → List (String × Value) → List MatchBlock → Option String →
    List String → Except PyErr Config
  | [], parsed, blocks, curCrit, curLines =>
    match curCrit with
    | some c =>
      if c ≠ "" then
        match build_match_block_sshd c curLines with
        | Except.error e => Except.error e
        | Except.ok b => Except.ok (Config.mk parsed (blocks ++ [b]))
      else Except.ok (Config.mk parsed blocks)
    | Option.none => Except.ok (Config.mk parsed blocks)
  | line :: rest, parsed, blocks, curCrit, curLines =>
    if get_directive_type line = "match" then
      let flushed : Except PyErr (List MatchBlock) :=
        match curCrit with
        | some c =>
          if c ≠ "" then
            (build_match_block_sshd c curLines).map (fun b => blocks ++ [b])
          else Except.ok blocks
        | Option.none => Except.ok blocks
      match flushed with
      | Except.error e => Except.error e
      | Except.ok blocks' =>
        match extract_match_criteria_sshd line with
        | Except.error e => Except.error e
        | Except.ok c' => parse_sshd_config_lines_loop rest parsed blocks' (some c') []
    else if curCrit.isSome then
      parse_sshd_config_lines_loop rest parsed blocks curCrit (curLines ++ [line])
    else
      match handle_global_directive_sshd line parsed with
      | Except.error e => Except.error e
      | Except.ok parsed' => parse_sshd_config_lines_loop rest parsed' blocks curCrit curLines

/-- SSHDInspector._parse_sshd_config_lines (sshd.py). -/
def parse_sshd_config_lines (lines : List String) : Except PyErr Config :=
  parse_sshd_config_lines_loop lines [] [] Option.none []

/-- The filesystem environment of ssh.py: `glob.glob`, `os.path.isfile`
and `_read_file` (whose reading failures already degrade to `[]` inside
the Python method, so `readLines` is total). -/
structure FS where
  glob : String → List String
  isFile : String → Bool
  readLines : String → List String

/-- Settings accumulation of SSHInspector._build_match_block (ssh.py):
total, same last-wins assignment as the sshd.py variant. -/
def build_settings_ssh (ls : List String) : List (String × Value) :=
  ls.foldl
    (fun s l =>
      let kv := parse_directive_line_ssh l
      if kv.1 ≠ "" then dictSet s kv.1 kv.2 else s) []

/-- SSHInspector._build_match_block (ssh.py). -/
def build_match_block_ssh (criteria : String) (ls : List String) : MatchBlock :=
  MatchBlock.mk criteria (build_settings_ssh ls)

/-- The first-wins merge loop shared by `_handle_include_directive` and
`_parse_included_files`: `for key, value in new.items(): if key not in d:
d[key] = value`. -/
def mergeFirstWins (d new : List (String × Value)) : List (String × Value) :=
  new.foldl (fun acc kv => if hasKey acc kv.1 then acc else acc ++ [kv]) d

/-- SSHInspector._parse_included_files (ssh.py), relative to a parsing
function for a single file's cleansed lines: glob the pattern, skip
non-file paths, parse each file and merge its global directives first
wins while concatenating its match blocks.  The Python code keeps the
block list under the `"Match"` key of the combined dict, popped before
the key merge; the `Config` structure keeps it in its own field. -/
def parse_included_files (fs : FS) (parseFile : List String → Config)
    (pattern : String) : Config :=
  (fs.glob pattern).foldl
    (fun acc f =>
      if fs.isFile f then
        let cfg := parseFile (cleanse_lines (fs.readLines f))
        Config.mk (mergeFirstWins acc.directives cfg.directives)
          (acc.matchBlocks ++ cfg.matchBlocks)
      else acc)
    (Config.mk [] [])

/-- Loop of SSHInspector._parse_sshd_config_lines (ssh.py): as the
sshd.py loop, but total (one-token `Match` lines get the empty criteria,
directive parsing never returns `None`) and with the `include` branch
wired to `_handle_include_directive`: record `"Include" -> pattern` if
not already present, append the included match blocks, then merge the
included global directives first wins. -/
def parse_ssh_config_lines_loop (incResolve : String → Config) :
    List String → List (String × Value) → List MatchBlock → Option String →
    List String → Config
  | [], parsed, blocks, curCrit, curLines =>
    let blocks' :=
      match curCrit with
      | some c => if c ≠ "" then blocks ++ [build_match_block_ssh c curLines] else blocks
      | Option.none => blocks
    Config.mk parsed blocks'
  | line :: rest, parsed, blocks, curCrit, curLines =>
    if get_directive_type line = "match" then
      let blocks' :=
        match curCrit with
        | some c => if c ≠ "" then blocks ++ [build_match_block_ssh c curLines] else blocks
        | Option.none => blocks
      let c' :=
        match pySplitWs line 1 with
        | [_, rest'] => pyStrip rest'
        | _ => ""
      parse_ssh_config_lines_loop incResolve rest parsed blocks' (some c') []
    else if curCrit.isSome then
      parse_ssh_config_lines_loop incResolve rest parsed blocks curCrit (curLines ++ [line])
    else if get_directive_type line = "include" then
      let pattern :=
        match pySplitWs line 1 with
        | [_, rest'] => pyStrip rest'
        | _ => ""
      let parsed₁ :=
        if hasKey parsed "Include" then parsed
        else parsed ++ [("Include", Value.str pattern)]
      let inc := incResolve pattern
      parse_ssh_config_lines_loop incResolve rest (mergeFirstWins parsed₁ inc.directives)
        (blocks ++ inc.matchBlocks) curCrit curLines
    else
      let kv := parse_directive_line_ssh line
      let parsed' :=
        if kv.1 ≠ "" && !(hasKey parsed kv.1) then parsed ++ [kv] else parsed
      parse_ssh_config_lines_loop incResolve rest parsed' blocks curCrit curLines

/-- SSHInspector._parse_sshd_config_lines (ssh.py).  The fuel bounds the
depth of `Include` re-entry; the Python original recurses without any
guard (a cyclic include diverges), so any execution that terminates is
reproduced by a large enough fuel, and fuel 0 returns the empty tree. -/
def parse_ssh_config_lines (fs : FS) : Nat → List String → Config
  | 0, _ => Config.mk [] []
  | n + 1, lines =>
    parse_ssh_config_lines_loop
      (fun pattern => parse_included_files fs (parse_ssh_config_lines fs n) pattern)
      lines [] [] Option.none []

/-- First loop of SSHDConfigComparator.compare, iterating the target
items: a non-`Match` key present in both with equal value goes to
`matching` (with the target's value); present in both with unequal value
goes to `missing_from_actual` (target's value) AND `extra_in_actual`
(actual's value); present only in target goes to `missing_from_actual`.
Written head-first so the produced lists keep the iteration order of the
Python `for` loop. -/
def compare_target_loop (aDir : List (String × Value)) :
    List (String × Value) →
    List (String × Value) × List (String × Value) × List (String × Value)
  | [] => ([], [], [])
  | (k, v) :: rest =>
    let r := compare_target_loop aDir rest
    if k = "Match" then r
    else
      match dictGet aDir k with
      | some av =>
        if pyEq av v then ((k, v) :: r.1, r.2.1, r.2.2)
        else (r.1, (k, v) :: r.2.1, (k, av) :: r.2.2)
      | Option.none => (r.1, (k, v) :: r.2.1, r.2.2)

/-- Second loop of SSHDConfigComparator.compare, iterating the actual
items: a non-`Match` key absent from the target goes to
`extra_in_actual`. -/
def compare_actual_loop (tDir : List (String × Value)) :
    List (String × Value) → List (String × Value)
  | [] => []
  | (k, v) :: rest =>
    if k = "Match" then compare_actual_loop tDir rest
    else if hasKey tDir k then compare_actual_loop tDir rest
    else (k, v) :: compare_actual_loop tDir rest

/-- The `{block["criterium"]: block["settings"] for block in blocks}`
dict comprehension: later blocks with the same criteria overwrite the
value in place (last wins), keys keep first-appearance order. -/
def blockMap (bs : List MatchBlock) : List (String × List (String × Value)) :=
  bs.foldl (fun m b => dictSet m b.criterium b.settings) []

/-- `settings.get(key) if settings else None` of the comparator: an
absent side, like an absent key, and like a stored `None`, all yield
Python `None`. -/
def effGet (s? : Option (List (String × Value))) (k : String) : Value :=
  match s? with
  | Option.none => Value.none
  | some s => (dictGet s k).getD Value.none

/-- `settings.keys() if settings else []`. -/
def keysOfOpt (s? : Option (List (String × Value))) : List String :=
  match s? with
  | Option.none => []
  | some s => keysOf s

/-- Inner loop of SSHDConfigComparator._compare_match_block_lists over
the union of setting keys of one criteria: equal effective values land
in the matched settings (unless the shared value is `None`); unequal
ones put the target value in missing and the actual value in extra,
each only when it `is not None`. -/
def compare_settings_loop (as? ts? : Option (List (String × Value))) :
    List String →
    List (String × Value) × List (String × Value) × List (String × Value)
  | [] => ([], [], [])
  | k :: rest =>
    let r := compare_settings_loop as? ts? rest
    let a := effGet as? k
    let t := effGet ts? k
    if pyEq a t then
      ((if a ≠ Value.none then [(k, a)] else []) ++ r.1, r.2.1, r.2.2)
    else
      (r.1, (if t ≠ Value.none then [(k, t)] else []) ++ r.2.1,
        (if a ≠ Value.none then [(k, a)] else []) ++ r.2.2)

/-- Outer loop of _compare_match_block_lists over the criteria union:
assemble per-criteria `{criterium, settings}` entries, omitting a
criteria from a result list when its settings for that list are empty. -/
def compare_criteria_loop (am tm : List (String × List (String × Value))) :
    List String → List MatchBlock × List MatchBlock × List MatchBlock
  | [] => ([], [], [])
  | c :: rest =>
    let r := compare_criteria_loop am tm rest
    let s := compare_settings_loop (dictGet am c) (dictGet tm c)
      (pyUnion (keysOfOpt (dictGet am c)) (keysOfOpt (dictGet tm c)))
    ((if s.1 ≠ [] then [MatchBlock.mk c s.1] else []) ++ r.1,
      (if s.2.1 ≠ [] then [MatchBlock.mk c s.2.1] else []) ++ r.2.1,
      (if s.2.2 ≠ [] then [MatchBlock.mk c s.2.2] else []) ++ r.2.2)

/-- SSHDConfigComparator._compare_match_block_lists. -/
def compare_match_block_lists (actualMatches targetMatches : List MatchBlock) :
    List MatchBlock × List MatchBlock × List MatchBlock :=
  let am := blockMap actualMatches
  let tm := blockMap targetMatches
  compare_criteria_loop am tm (pyUnion (keysOf am) (keysOf tm))

/-- SSHDConfigComparator.compare: the three flat dicts from the two item
loops (the first loop's extra entries precede the second loop's), plus
the match-block diff attached under the reserved `Match` key (a `Config`
field here) when non-empty. -/
def compare (actual target : Config) : Config × Config × Config :=
  let flat := compare_target_loop actual.directives target.directives
  let extraFlat := flat.2.2 ++ compare_actual_loop target.directives actual.directives
  let blocks := compare_match_block_lists actual.matchBlocks target.matchBlocks
  (Config.mk flat.1 blocks.1, Config.mk flat.2.1 blocks.2.1,
    Config.mk extraFlat blocks.2.2)

/-- A filesystem with no glob matches and no readable files, for runs of
the ssh.py parser that exercise no `Include` directive. -/
def emptyFS : FS where
  glob := fun _ => []
  isFile := fun _ => true
  readLines := fun _ => []

/-- A small filesystem for `Include` scenarios: the pattern
`sshd_config.d` matches two regular files that both define
`PubkeyAuthentication`, differently. -/
def demoFS : FS where
  glob := fun p => if p = "sshd_config.d" then ["a.conf", "b.conf"] else []
  isFile := fun _ => true
  readLines := fun f =>
    if f = "a.conf" then ["PubkeyAuthentication no"]
    else if f = "b.conf" then ["PubkeyAuthentication yes", "Bar 9"]
    else []

/-- Claim C1: the claim states that parsing never raises and that a
`Subsystem` line with a token count other than 3 is skipped with parsing
continuing.  In sshd.py (the cited code) this is false: on the two-token
line `Subsystem sftp`, `_parse_subsystem_line` falls off its end and
returns `None`, and `_handle_global_directive`'s unpacking
`key, value = self._parse_directive_line(line)` raises `TypeError` to
the caller, aborting the parse.  The sibling variant ssh.py returns the
falsy pair `("", "")` instead and behaves exactly as the claim states,
which, with sshd.py's own `-> Tuple[str, str]` annotation, shows the
sshd.py behaviour to be the slip. -/
theorem C1_sshd_malformed_subsystem_raises :
    parse_sshd_config_lines ["Port 22", "Subsystem sftp", "UsePAM"] =
      Except.error PyErr.typeError ∧
    parse_ssh_config_lines emptyFS 1 ["Port 22", "Subsystem sftp", "UsePAM"] =
      Config.mk [("Port", Value.int 22), ("UsePAM", Value.bool true)] [] := by
  decide

/-- Claim C2: the claim states first-wins for duplicate keys both among
global directives and inside one `Match` block.  Global duplicates do
keep the first value (first conjunct), but inside a single `Match`
block both variants execute `settings[key] = value` with no presence
check, so the LAST duplicate wins (second and third conjuncts: the
block records `X11Forwarding -> False`, the value of the later line),
contradicting the claim and the sources' own "First value wins"
docstrings. -/
theorem C2_match_block_duplicates_keep_last :
    parse_sshd_config_lines ["X11Forwarding yes", "X11Forwarding no"] =
      Except.ok (Config.mk [("X11Forwarding", Value.bool true)] []) ∧
    parse_sshd_config_lines ["Match User admin", "X11Forwarding yes", "X11Forwarding no"] =
      Except.ok (Config.mk [] [MatchBlock.mk "User admin" [("X11Forwarding", Value.bool false)]]) ∧
    parse_ssh_config_lines emptyFS 1 ["Match User admin", "X11Forwarding yes", "X11Forwarding no"] =
      Config.mk [] [MatchBlock.mk "User admin" [("X11Forwarding", Value.bool false)]] := by
  decide

/-- Claim C4, counterexample: the target-only criteria `c` has the
settings key `K` (valued Python `None`, the parser's value for a bare
key line), yet all three result lists are empty — `K` is silently
dropped instead of being classified as wholly missing, refuting the
claim that "no key of such a one-sided block is silently dropped". -/
theorem C4_counterexample :
    compare_match_block_lists [] [MatchBlock.mk "c" [("K", Value.none)]] =
      ([], [], []) := by
  decide

/-- Claim C5, counterexample: with actual value `1` (int) and target
value `True` (bool) for key `K`, Python's `==` holds (bool is an int
subclass), so `compare` places `K` in `matching` — refuting the claim
that such a key must never be classified as matching. -/
theorem C5_counterexample :
    compare (Config.mk [("K", Value.int 1)] []) (Config.mk [("K", Value.bool true)] []) =
      (Config.mk [("K", Value.bool true)] [], Config.mk [] [], Config.mk [] []) := by
  decide

/-- Claim C6, counterexample: for the tree `A` whose single match block
carries the `None`-valued setting `K`, `compare A A` returns an empty
`matching` — not `A`'s comparable content, which contains `K` — because
the match-block diff drops `None`-valued settings even when equal. -/
theorem C6_counterexample :
    compare (Config.mk [] [MatchBlock.mk "c" [("K", Value.none)]])
        (Config.mk [] [MatchBlock.mk "c" [("K", Value.none)]]) =
      (Config.mk [] [], Config.mk [] [], Config.mk [] []) := by
  decide

/-- Claim C8, counterexample: the sanitizer keeps surviving lines
verbatim — the output line `"  Port 22"` still carries its leading
whitespace — refuting the claim that each output line is
whitespace-trimmed. -/
theorem C8_counterexample :
    cleanse_lines ["  Port 22"] = ["  Port 22"] ∧
    pyStrip "  Port 22" = "Port 22" ∧ "  Port 22" ≠ "Port 22" := by
  decide

/-- Claim C8, amended: the sanitizer's output is the subsequence of the
ORIGINAL (untrimmed) lines that are neither whitespace-only nor
comments (stripped form starting with `#`), order preserved and each
kept line unchanged; no trimming or other transformation is applied. -/
theorem C8_cleanse_is_filter (raw : List String) :
    cleanse_lines raw =
      raw.filter (fun l => pyStrip l != "" && !(startsWithHash (pyStrip l))) := by
  unfold cleanse_lines
  rw [List.filter_filter]
  exact List.filter_congr (fun a _ => Bool.and_comm _ _)

theorem pyEq_refl (v : Value) : pyEq v v = true := by
  cases v <;> simp [pyEq]

theorem dictGet_append_left {xs : List (String × α)} (ys : List (String × α))
    {k : String} {v : α} (h : dictGet xs k = some v) :
    dictGet (xs ++ ys) k = some v := by
  induction xs with
  | nil => cases h
  | cons p rest ih =>
    by_cases hp : p.1 = k
    · simpa [dictGet, hp] using h
    · simp only [dictGet, hp, if_false] at h ⊢
      simpa [dictGet, hp] using ih h

theorem dictGet_append_right {xs : List (String × α)} (ys : List (String × α))
    {k : String} (h : dictGet xs k = Option.none) :
    dictGet (xs ++ ys) k = dictGet ys k := by
  induction xs with
  | nil => rfl
  | cons p rest ih =>
    by_cases hp : p.1 = k
    · simp [dictGet, hp] at h
    · simp only [dictGet, hp, if_false] at h ⊢
      simpa [dictGet, hp] using ih h

theorem dictGet_eq_none_of_not_mem_keys {d : List (String × α)} {k : String}
    (h : k ∉ keysOf d) : dictGet d k = Option.none := by
  induction d with
  | nil => rfl
  | cons p rest ih =>
    simp only [keysOf, List.map_cons, List.mem_cons, not_or] at h
    have hp : ¬ (p.1 = k) := fun hh => h.1 hh.symm
    simp [dictGet, hp, ih (by simpa [keysOf] using h.2)]

theorem dictGet_of_mem_nodup {d : List (String × α)} {k : String} {v : α}
    (hnd : (keysOf d).Nodup) (hm : (k, v) ∈ d) : dictGet d k = some v := by
  induction d with
  | nil => cases hm
  | cons p rest ih =>
    simp only [keysOf, List.map_cons, List.nodup_cons] at hnd
    rcases List.mem_cons.mp hm with h | h
    · cases h
      simp [dictGet]
    · have hk : p.1 ≠ k := by
        intro hh
        exact hnd.1 (hh ▸ (List.mem_map.mpr ⟨(k, v), h, rfl⟩))
      simp [dictGet, hk, ih hnd.2 h]

theorem hasKey_of_mem {d : List (String × α)} {k : String} {v : α}
    (hm : (k, v) ∈ d) : hasKey d k = true := by
  induction d with
  | nil => cases hm
  | cons p rest ih =>
    rcases List.mem_cons.mp hm with h | h
    · cases h
      simp [hasKey, dictGet]
    · by_cases hk : p.1 = k
      · simp [hasKey, dictGet, hk]
      · simp [hasKey, dictGet, hk] at ih ⊢
        exact ih h

theorem mem_of_dictGet {d : List (String × α)} {k : String} {v : α}
    (h : dictGet d k = some v) : (k, v) ∈ d := by
  induction d with
  | nil => cases h
  | cons p rest ih =>
    by_cases hk : p.1 = k
    · simp only [dictGet, hk, if_pos rfl] at h
      cases h
      exact hk ▸ List.mem_cons_self _ _
    · simp only [dictGet, hk, if_false] at h
      exact List.mem_cons_of_mem _ (ih h)

theorem keysOf_mem_of_dictGet {d : List (String × α)} {k : String} {v : α}
    (h : dictGet d k = some v) : k ∈ keysOf d :=
  List.mem_map.mpr ⟨(k, v), mem_of_dictGet h, rfl⟩

/-- If a key is absent from the iterated target items, the first compare
loop records nothing for it in any of the three dicts. -/
theorem compare_target_loop_get_absent (aDir : List (String × Value))
    (ts : List (String × Value)) (k : String)
    (h : dictGet ts k = Option.none) :
    dictGet (compare_target_loop aDir ts).1 k = Option.none ∧
    dictGet (compare_target_loop aDir ts).2.1 k = Option.none ∧
    dictGet (compare_target_loop aDir ts).2.2 k = Option.none := by
  induction ts with
  | nil => exact ⟨rfl, rfl, rfl⟩
  | cons p rest ih =>
    obtain ⟨k₀, v₀⟩ := p
    have hk₀ : ¬ (k₀ = k) := by
      intro hh
      simp [dictGet, hh] at h
    have hrest : dictGet rest k = Option.none := by
      simpa [dictGet, hk₀] using h
    have ihr := ih hrest
    by_cases hM : k₀ = "Match"
    · simpa [compare_target_loop, hM] using ihr
    · rcases hA : dictGet aDir k₀ with _ | av
      · simpa [compare_target_loop, hM, hA, dictGet, hk₀] using ihr
      · by_cases hEq : pyEq av v₀ = true <;>
          simp [compare_target_loop, hM, hA, hEq, dictGet, hk₀, ihr.1, ihr.2.1, ihr.2.2]

/-- Characterisation of the first compare loop at a key present in the
target (whose keys are duplicate free, as Python dict keys are): the
three classifications according to presence in the actual dict and
Python equality of the two values. -/
theorem compare_target_loop_get (aDir : List (String × Value))
    (ts : List (String × Value)) (k : String) (vt : Value)
    (hk : k ≠ "Match") (hnd : (keysOf ts).Nodup)
    (ht : dictGet ts k = some vt) :
    (∀ va, dictGet aDir k = some va →
      (pyEq va vt = true →
        dictGet (compare_target_loop aDir ts).1 k = some vt ∧
        dictGet (compare_target_loop aDir ts).2.1 k = Option.none ∧
        dictGet (compare_target_loop aDir ts).2.2 k = Option.none) ∧
      (pyEq va vt = false →
        dictGet (compare_target_loop aDir ts).1 k = Option.none ∧
        dictGet (compare_target_loop aDir ts).2.1 k = some vt ∧
        dictGet (compare_target_loop aDir ts).2.2 k = some va)) ∧
    (dictGet aDir k = Option.none →
      dictGet (compare_target_loop aDir ts).1 k = Option.none ∧
      dictGet (compare_target_loop aDir ts).2.1 k = some vt ∧
      dictGet (compare_target_loop aDir ts).2.2 k = Option.none) := by
  induction ts with
  | nil => cases ht
  | cons p rest ih =>
    obtain ⟨k₀, v₀⟩ := p
    simp only [keysOf, List.map_cons, List.nodup_cons] at hnd
    by_cases hk₀ : k₀ = k
    · have hv : v₀ = vt := by
        simpa [dictGet, hk₀] using ht
      subst hv
      have hM : ¬ (k₀ = "Match") := fun hh => hk (by rw [← hk₀, hh])
      have hrest : dictGet rest k = Option.none := by
        refine dictGet_eq_none_of_not_mem_keys ?_
        rw [← hk₀]
        simpa [keysOf] using hnd.1
      have habs := compare_target_loop_get_absent aDir rest k hrest
      refine ⟨fun va hA => ⟨fun hEq => ?_, fun hEq => ?_⟩, fun hA => ?_⟩
      · simp [compare_target_loop, hk, hk₀, hA, hEq, dictGet,
          habs.1, habs.2.1, habs.2.2]
      · simp [compare_target_loop, hk, hk₀, hA, hEq, dictGet,
          habs.1, habs.2.1, habs.2.2]
      · simp [compare_target_loop, hk, hk₀, hA, dictGet,
          habs.1, habs.2.1, habs.2.2]
    · have htr : dictGet rest k = some vt := by
        simpa [dictGet, hk₀] using ht
      have ihr := ih (by simpa [keysOf] using hnd.2) htr
      by_cases hM : k₀ = "Match"
      · simpa [compare_target_loop, hM] using ihr
      · rcases hA0 : dictGet aDir k₀ with _ | av₀
        · refine ⟨fun va hA => ⟨fun hEq => ?_, fun hEq => ?_⟩, fun hA => ?_⟩
          · simpa [compare_target_loop, hM, hA0, dictGet, hk₀] using (ihr.1 va hA).1 hEq
          · simpa [compare_target_loop, hM, hA0, dictGet, hk₀] using (ihr.1 va hA).2 hEq
          · simpa [compare_target_loop, hM, hA0, dictGet, hk₀] using ihr.2 hA
        · by_cases hEq0 : pyEq av₀ v₀ = true
          · refine ⟨fun va hA => ⟨fun hEq => ?_, fun hEq => ?_⟩, fun hA => ?_⟩
            · simpa [compare_target_loop, hM, hA0, hEq0, dictGet, hk₀] using (ihr.1 va hA).1 hEq
            · simpa [compare_target_loop, hM, hA0, hEq0, dictGet, hk₀] using (ihr.1 va hA).2 hEq
            · simpa [compare_target_loop, hM, hA0, hEq0, dictGet, hk₀] using ihr.2 hA
          · refine ⟨fun va hA => ⟨fun hEq => ?_, fun hEq => ?_⟩, fun hA => ?_⟩
            · simpa [compare_target_loop, hM, hA0, hEq0, dictGet, hk₀] using (ihr.1 va hA).1 hEq
            · simpa [compare_target_loop, hM, hA0, hEq0, dictGet, hk₀] using (ihr.1 va hA).2 hEq
            · simpa [compare_target_loop, hM, hA0, hEq0, dictGet, hk₀] using ihr.2 hA

/-- The second compare loop records a non-`Match` key exactly when the
target lacks it, with the actual value. -/
theorem compare_actual_loop_get (tDir aDir : List (String × Value))
    (k : String) (hk : k ≠ "Match") :
    dictGet (compare_actual_loop tDir aDir) k =
      if hasKey tDir k then Option.none else dictGet aDir k := by
  induction aDir with
  | nil => by_cases h : hasKey tDir k <;> simp [compare_actual_loop, dictGet, h]
  | cons p rest ih =>
    obtain ⟨k₀, v₀⟩ := p
    by_cases hk₀ : k₀ = k
    · have hM : ¬ (k₀ = "Match") := fun hh => hk (by rw [← hk₀, hh])
      by_cases hT : hasKey tDir k
      · rw [show compare_actual_loop tDir ((k₀, v₀) :: rest) =
            compare_actual_loop tDir rest by simp [compare_actual_loop, hk, hk₀, hT],
          ih, if_pos hT, if_pos hT]
      · rw [show compare_actual_loop tDir ((k₀, v₀) :: rest) =
            (k₀, v₀) :: compare_actual_loop tDir rest by
              simp [compare_actual_loop, hk, hk₀, hT],
          if_neg hT]
        simp [dictGet, hk₀]
    · by_cases hM : k₀ = "Match"
      · rw [show compare_actual_loop tDir ((k₀, v₀) :: rest) =
            compare_actual_loop tDir rest by simp [compare_actual_loop, hM], ih]
        by_cases hT : hasKey tDir k <;> simp [hT, dictGet, hk₀]
      · by_cases hT0 : hasKey tDir k₀
        · rw [show compare_actual_loop tDir ((k₀, v₀) :: rest) =
              compare_actual_loop tDir rest by simp [compare_actual_loop, hM, hT0], ih]
          by_cases hT : hasKey tDir k <;> simp [hT, dictGet, hk₀]
        · rw [show compare_actual_loop tDir ((k₀, v₀) :: rest) =
              (k₀, v₀) :: compare_actual_loop tDir rest by
                simp [compare_actual_loop, hM, hT0]]
          by_cases hT : hasKey tDir k <;> simp [hT, dictGet, hk₀, ih]

/-- Full classification of one non-`Match` key by the flat part of
`compare` (shared backbone of several claims): mismatch lands on both
sides, one-sided keys on their own side, equal values only in
`matching`. -/
theorem compare_flat_get (actual target : Config) (k : String)
    (hk : k ≠ "Match") (hnd : (keysOf target.directives).Nodup) :
    (∀ va vt, dictGet actual.directives k = some va →
      dictGet target.directives k = some vt → pyEq va vt = false →
      dictGet (compare actual target).2.1.directives k = some vt ∧
      dictGet (compare actual target).2.2.directives k = some va ∧
      dictGet (compare actual target).1.directives k = Option.none) ∧
    (∀ vt, dictGet actual.directives k = Option.none →
      dictGet target.directives k = some vt →
      dictGet (compare actual target).2.1.directives k = some vt ∧
      dictGet (compare actual target).2.2.directives k = Option.none ∧
      dictGet (compare actual target).1.directives k = Option.none) ∧
    (∀ va, dictGet actual.directives k = some va →
      dictGet target.directives k = Option.none →
      dictGet (compare actual target).2.2.directives k = some va ∧
      dictGet (compare actual target).2.1.directives k = Option.none ∧
      dictGet (compare actual target).1.directives k = Option.none) ∧
    (∀ va vt, dictGet actual.directives k = some va →
      dictGet target.directives k = some vt → pyEq va vt = true →
      dictGet (compare actual target).1.directives k = some vt ∧
      dictGet (compare actual target).2.1.directives k = Option.none ∧
      dictGet (compare actual target).2.2.directives k = Option.none) := by
  have hext : (compare actual target).2.2.directives =
      (compare_target_loop actual.directives target.directives).2.2 ++
        compare_actual_loop target.directives actual.directives := rfl
  have hmis : (compare actual target).2.1.directives =
      (compare_target_loop actual.directives target.directives).2.1 := rfl
  have hmat : (compare actual target).1.directives =
      (compare_target_loop actual.directives target.directives).1 := rfl
  have hact := compare_actual_loop_get target.directives actual.directives k hk
  refine ⟨?_, ?_, ?_, ?_⟩
  · intro va vt hA hT hne
    have h := (compare_target_loop_get actual.directives target.directives k vt hk hnd hT).1 va hA
    have h2 := h.2 hne
    refine ⟨hmis ▸ h2.2.1, ?_, hmat ▸ h2.1⟩
    rw [hext]
    exact dictGet_append_left _ h2.2.2
  · intro vt hA hT
    have h := (compare_target_loop_get actual.directives target.directives k vt hk hnd hT).2 hA
    refine ⟨hmis ▸ h.2.1, ?_, hmat ▸ h.1⟩
    rw [hext, dictGet_append_right _ h.2.2, hact, if_pos (by simp [hasKey, hT])]
  · intro va hA hT
    have habs := compare_target_loop_get_absent actual.directives target.directives k hT
    refine ⟨?_, hmis ▸ habs.2.1, hmat ▸ habs.1⟩
    rw [hext, dictGet_append_right _ habs.2.2, hact,
      if_neg (by simp [hasKey, hT]), hA]
  · intro va vt hA hT heq
    have h := ((compare_target_loop_get actual.directives target.directives k vt hk hnd hT).1 va hA).1 heq
    refine ⟨hmat ▸ h.1, hmis ▸ h.2.1, ?_⟩
    rw [hext, dictGet_append_right _ h.2.2, hact, if_pos (by simp [hasKey, hT])]

/-- Claim C3: in the flat-key comparison, for every non-`Match` key, a
key present in both trees with Python-unequal values is recorded in
`missing_from_actual` with the target's value AND in `extra_in_actual`
with the actual's value (and not in `matching`); a target-only key goes
only to `missing_from_actual`; an actual-only key goes only to
`extra_in_actual`; a key with equal values goes only to `matching`
(with the target's value, as the source stores it). -/
theorem C3_flat_classification (actual target : Config) (k : String)
    (hk : k ≠ "Match") (hnd : (keysOf target.directives).Nodup) :
    (∀ va vt, dictGet actual.directives k = some va →
      dictGet target.directives k = some vt → pyEq va vt = false →
      dictGet (compare actual target).2.1.directives k = some vt ∧
      dictGet (compare actual target).2.2.directives k = some va ∧
      dictGet (compare actual target).1.directives k = Option.none) ∧
    (∀ vt, dictGet actual.directives k = Option.none →
      dictGet target.directives k = some vt →
      dictGet (compare actual target).2.1.directives k = some vt ∧
      dictGet (compare actual target).2.2.directives k = Option.none ∧
      dictGet (compare actual target).1.directives k = Option.none) ∧
    (∀ va, dictGet actual.directives k = some va →
      dictGet target.directives k = Option.none →
      dictGet (compare actual target).2.2.directives k = some va ∧
      dictGet (compare actual target).2.1.directives k = Option.none ∧
      dictGet (compare actual target).1.directives k = Option.none) ∧
    (∀ va vt, dictGet actual.directives k = some va →
      dictGet target.directives k = some vt → pyEq va vt = true →
      dictGet (compare actual target).1.directives k = some vt ∧
      dictGet (compare actual target).2.1.directives k = Option.none ∧
      dictGet (compare actual target).2.2.directives k = Option.none) :=
  compare_flat_get actual target k hk hnd

/-- Claim C3, witness: the classification at the mismatching key
`UseDNS` of two concrete trees (actual `UseDNS=false`, target
`UseDNS=true`). -/
theorem C3_flat_classification_witness :
    dictGet (compare
        (Config.mk [("UseDNS", Value.bool false), ("Extra", Value.int 5)] [])
        (Config.mk [("UseDNS", Value.bool true), ("LogLevel", Value.str "INFO")] [])).2.1.directives
      "UseDNS" = some (Value.bool true) ∧
    dictGet (compare
        (Config.mk [("UseDNS", Value.bool false), ("Extra", Value.int 5)] [])
        (Config.mk [("UseDNS", Value.bool true), ("LogLevel", Value.str "INFO")] [])).2.2.directives
      "UseDNS" = some (Value.bool false) ∧
    dictGet (compare
        (Config.mk [("UseDNS", Value.bool false), ("Extra", Value.int 5)] [])
        (Config.mk [("UseDNS", Value.bool true), ("LogLevel", Value.str "INFO")] [])).1.directives
      "UseDNS" = Option.none :=
  (C3_flat_classification
    (Config.mk [("UseDNS", Value.bool false), ("Extra", Value.int 5)] [])
    (Config.mk [("UseDNS", Value.bool true), ("LogLevel", Value.str "INFO")] [])
    "UseDNS" (by decide) (by decide)).1
    (Value.bool false) (Value.bool true) (by decide) (by decide) (by decide)

/-- Claim C5, amended: Python `==` treats `bool` as a subclass of
`int`, so integer `1` and boolean `True` DO compare equal in the
comparator: a non-`Match` key whose actual value is `1` and whose
target value is `True` (or vice versa) is placed in `matching` with the
target's value and is reported in neither `missing_from_actual` nor
`extra_in_actual` — it is not reported as a mismatch. -/
theorem C5_int_one_bool_true_match (actual target : Config) (k : String)
    (hk : k ≠ "Match") (hnd : (keysOf target.directives).Nodup) :
    (dictGet actual.directives k = some (Value.int 1) →
      dictGet target.directives k = some (Value.bool true) →
      dictGet (compare actual target).1.directives k = some (Value.bool true) ∧
      dictGet (compare actual target).2.1.directives k = Option.none ∧
      dictGet (compare actual target).2.2.directives k = Option.none) ∧
    (dictGet actual.directives k = some (Value.bool true) →
      dictGet target.directives k = some (Value.int 1) →
      dictGet (compare actual target).1.directives k = some (Value.int 1) ∧
      dictGet (compare actual target).2.1.directives k = Option.none ∧
      dictGet (compare actual target).2.2.directives k = Option.none) := by
  constructor
  · intro hA hT
    exact (compare_flat_get actual target k hk hnd).2.2.2
      (Value.int 1) (Value.bool true) hA hT (by decide)
  · intro hA hT
    exact (compare_flat_get actual target k hk hnd).2.2.2
      (Value.bool true) (Value.int 1) hA hT (by decide)

/-- Claim C5, witness for the amended statement, at the concrete trees
of the counterexample. -/
theorem C5_int_one_bool_true_match_witness :
    dictGet (compare (Config.mk [("K", Value.int 1)] [])
        (Config.mk [("K", Value.bool true)] [])).1.directives "K" =
      some (Value.bool true) ∧
    dictGet (compare (Config.mk [("K", Value.int 1)] [])
        (Config.mk [("K", Value.bool true)] [])).2.1.directives "K" = Option.none ∧
    dictGet (compare (Config.mk [("K", Value.int 1)] [])
        (Config.mk [("K", Value.bool true)] [])).2.2.directives "K" = Option.none :=
  (C5_int_one_bool_true_match (Config.mk [("K", Value.int 1)] [])
    (Config.mk [("K", Value.bool true)] []) "K" (by decide) (by decide)).1
    (by decide) (by decide)

theorem pyEq_none_left_iff (t : Value) :
    pyEq Value.none t = true ↔ t = Value.none := by
  cases t <;> simp [pyEq]

theorem pyEq_none_right_iff (a : Value) :
    pyEq a Value.none = true ↔ a = Value.none := by
  cases a <;> simp [pyEq]

/-- The inner settings loop with both sides equal: every key with a
non-`None` effective value lands in the matched settings, nothing in
missing or extra. -/
theorem compare_settings_loop_same (s? : Option (List (String × Value)))
    (ks : List String) :
    compare_settings_loop s? s? ks =
      (ks.filterMap (fun k =>
        if effGet s? k = Value.none then Option.none else some (k, effGet s? k)),
       [], []) := by
  induction ks with
  | nil => rfl
  | cons k rest ih =>
    by_cases h : effGet s? k = Value.none <;>
      simp [compare_settings_loop, pyEq_refl, ih, h, List.filterMap_cons]

/-- The inner settings loop with the actual side absent: every key with
a non-`None` effective target value is missing, nothing matches and
nothing is extra. -/
theorem compare_settings_loop_left_none (s? : Option (List (String × Value)))
    (ks : List String) :
    compare_settings_loop Option.none s? ks =
      ([],
       ks.filterMap (fun k =>
        if effGet s? k = Value.none then Option.none else some (k, effGet s? k)),
       []) := by
  induction ks with
  | nil => rfl
  | cons k rest ih =>
    have ha : effGet Option.none k = Value.none := rfl
    by_cases h : effGet s? k = Value.none
    · have he : pyEq Value.none (effGet s? k) = true := by
        rw [h]
        rfl
      simp [compare_settings_loop, he, ha, ih, h, List.filterMap_cons]
    · have he : pyEq Value.none (effGet s? k) = false :=
        Bool.eq_false_iff.mpr (fun hc => h ((pyEq_none_left_iff _).mp hc))
      simp [compare_settings_loop, he, ha, ih, h, List.filterMap_cons]

/-- The inner settings loop with the target side absent: every key with
a non-`None` effective actual value is extra, nothing matches and
nothing is missing. -/
theorem compare_settings_loop_right_none (s? : Option (List (String × Value)))
    (ks : List String) :
    compare_settings_loop s? Option.none ks =
      ([], [],
       ks.filterMap (fun k =>
        if effGet s? k = Value.none then Option.none else some (k, effGet s? k))) := by
  induction ks with
  | nil => rfl
  | cons k rest ih =>
    have ht : effGet Option.none k = Value.none := rfl
    by_cases h : effGet s? k = Value.none
    · have he : pyEq (effGet s? k) Value.none = true := by
        rw [h]
        rfl
      simp [compare_settings_loop, he, ht, ih, h, List.filterMap_cons]
    · have he : pyEq (effGet s? k) Value.none = false :=
        Bool.eq_false_iff.mpr (fun hc => h ((pyEq_none_right_iff _).mp hc))
      simp [compare_settings_loop, he, ht, ih, h, List.filterMap_cons]

/-- A key whose effective value is `None` on both sides is recorded in
none of the three settings lists. -/
theorem compare_settings_loop_get_none (as? ts? : Option (List (String × Value)))
    (k : String) (ha : effGet as? k = Value.none) (ht : effGet ts? k = Value.none)
    (ks : List String) :
    dictGet (compare_settings_loop as? ts? ks).1 k = Option.none ∧
    dictGet (compare_settings_loop as? ts? ks).2.1 k = Option.none ∧
    dictGet (compare_settings_loop as? ts? ks).2.2 k = Option.none := by
  induction ks with
  | nil => exact ⟨rfl, rfl, rfl⟩
  | cons k' rest ih =>
    by_cases hk' : k' = k
    · have he : pyEq (effGet as? k') (effGet ts? k') = true := by
        rw [hk', ha, ht]
        decide
      have hnota : ¬ (effGet as? k' ≠ Value.none) := by
        rw [hk', ha]
        simp
      simp [compare_settings_loop, he, hnota, ih.1, ih.2.1, ih.2.2]
    · by_cases he : pyEq (effGet as? k') (effGet ts? k') = true
      · by_cases hna : effGet as? k' ≠ Value.none <;>
          simp [compare_settings_loop, he, hna, dictGet, hk', ih.1, ih.2.1, ih.2.2]
      · by_cases hna : effGet as? k' ≠ Value.none <;>
          by_cases hnt : effGet ts? k' ≠ Value.none <;>
          simp [compare_settings_loop, he, hna, hnt, dictGet, hk', ih.1, ih.2.1, ih.2.2]

/-- The outer criteria loop produces, for each result list, the
per-criteria block (omitted when its settings are empty), in criteria
order. -/
theorem compare_criteria_loop_eq (am tm : List (String × List (String × Value)))
    (cs : List String) :
    compare_criteria_loop am tm cs =
      (cs.filterMap (fun c =>
        let s := compare_settings_loop (dictGet am c) (dictGet tm c)
          (pyUnion (keysOfOpt (dictGet am c)) (keysOfOpt (dictGet tm c)))
        if s.1 = [] then Option.none else some (MatchBlock.mk c s.1)),
       cs.filterMap (fun c =>
        let s := compare_settings_loop (dictGet am c) (dictGet tm c)
          (pyUnion (keysOfOpt (dictGet am c)) (keysOfOpt (dictGet tm c)))
        if s.2.1 = [] then Option.none else some (MatchBlock.mk c s.2.1)),
       cs.filterMap (fun c =>
        let s := compare_settings_loop (dictGet am c) (dictGet tm c)
          (pyUnion (keysOfOpt (dictGet am c)) (keysOfOpt (dictGet tm c)))
        if s.2.2 = [] then Option.none else some (MatchBlock.mk c s.2.2))) := by
  induction cs with
  | nil => rfl
  | cons c rest ih =>
    simp only [compare_criteria_loop, ih, List.filterMap_cons]
    refine Prod.ext ?_ (Prod.ext ?_ ?_)
    · dsimp only
      by_cases h : (compare_settings_loop (dictGet am c) (dictGet tm c)
          (pyUnion (keysOfOpt (dictGet am c)) (keysOfOpt (dictGet tm c)))).1 = [] <;>
        simp [h]
    · dsimp only
      by_cases h : (compare_settings_loop (dictGet am c) (dictGet tm c)
          (pyUnion (keysOfOpt (dictGet am c)) (keysOfOpt (dictGet tm c)))).2.1 = [] <;>
        simp [h]
    · dsimp only
      by_cases h : (compare_settings_loop (dictGet am c) (dictGet tm c)
          (pyUnion (keysOfOpt (dictGet am c)) (keysOfOpt (dictGet tm c)))).2.2 = [] <;>
        simp [h]

theorem not_mem_keys_of_dictGet_none {d : List (String × α)} {k : String}
    (h : dictGet d k = Option.none) : k ∉ keysOf d := by
  intro hm
  obtain ⟨p, hp, hpk⟩ := List.mem_map.mp hm
  have hmem : (k, p.2) ∈ d := by
    rw [← hpk]
    exact hp
  have := hasKey_of_mem hmem
  simp [hasKey, h] at this

theorem mem_pyUnion_left {xs : List String} (ys : List String) {k : String}
    (h : k ∈ xs) : k ∈ pyUnion xs ys :=
  List.mem_append.mpr (Or.inl h)

theorem mem_pyUnion_right (xs : List String) {ys : List String} {k : String}
    (hk : k ∈ ys) (hnot : k ∉ xs) : k ∈ pyUnion xs ys := by
  refine List.mem_append.mpr (Or.inr (List.mem_filter.mpr ⟨hk, ?_⟩))
  simp [hnot]

theorem pyUnion_nil_left (ys : List String) : pyUnion [] ys = ys := by
  simp [pyUnion]

theorem filterMap_congr_mem {α β : Type} {l : List α} {f g : α → Option β}
    (h : ∀ a ∈ l, f a = g a) : l.filterMap f = l.filterMap g := by
  induction l with
  | nil => rfl
  | cons a rest ih =>
    simp only [List.filterMap_cons, h a (List.mem_cons_self _ _),
      ih (fun b hb => h b (List.mem_cons_of_mem _ hb))]

/-- A block drawn from one of the per-criteria result lists carries a
criteria from the iterated list and that criteria's (non-empty)
computed settings. -/
theorem block_filterMap_mem {cs : List String}
    (X : String → List (String × Value)) {b : MatchBlock}
    (hb : b ∈ cs.filterMap (fun c =>
      if X c = [] then Option.none else some (MatchBlock.mk c (X c)))) :
    b.criterium ∈ cs ∧ X b.criterium ≠ [] ∧
      b = MatchBlock.mk b.criterium (X b.criterium) := by
  obtain ⟨c, hc, hfc⟩ := List.mem_filterMap.mp hb
  by_cases h : X c = []
  · rw [if_pos h] at hfc
    cases hfc
  · rw [if_neg h] at hfc
    cases hfc
    exact ⟨hc, h, rfl⟩

/-- Walking a settings dict (with Python-unique keys) by its keys and
reading back through `effGet` reproduces the entries whose value is not
`None`. -/
theorem keys_filterMap_eff (s : List (String × Value))
    (hnd : (keysOf s).Nodup) :
    (keysOf s).filterMap (fun k =>
      if effGet (some s) k = Value.none then Option.none
      else some (k, effGet (some s) k)) =
    s.filter (fun p => !(p.2 == Value.none)) := by
  induction s with
  | nil => rfl
  | cons p rest ih =>
    obtain ⟨k₀, v₀⟩ := p
    simp only [keysOf, List.map_cons, List.nodup_cons] at hnd
    have heff : ∀ k ∈ keysOf rest,
        (if effGet (some ((k₀, v₀) :: rest)) k = Value.none then Option.none
         else some (k, effGet (some ((k₀, v₀) :: rest)) k)) =
        (if effGet (some rest) k = Value.none then Option.none
         else some (k, effGet (some rest) k)) := by
      intro k hk
      have hkk : ¬ (k₀ = k) := by
        intro hh
        refine hnd.1 ?_
        rw [hh]
        exact hk
      simp [effGet, dictGet, hkk]
    have h0 : effGet (some ((k₀, v₀) :: rest)) k₀ = v₀ := by
      simp [effGet, dictGet]
    by_cases hv : v₀ = Value.none
    · simp only [keysOf, List.map_cons, List.filterMap_cons, h0, hv, if_pos rfl]
      rw [show (List.map Prod.fst rest).filterMap (fun k =>
          if effGet (some ((k₀, Value.none) :: rest)) k = Value.none then Option.none
          else some (k, effGet (some ((k₀, Value.none) :: rest)) k)) =
          (keysOf rest).filterMap (fun k =>
          if effGet (some rest) k = Value.none then Option.none
          else some (k, effGet (some rest) k)) from
            filterMap_congr_mem (by simpa [keysOf, hv] using heff),
        ih hnd.2]
      simp [effGet, dictGet, List.filter_cons]
    · simp only [keysOf, List.map_cons, List.filterMap_cons, h0, if_neg hv]
      rw [show (List.map Prod.fst rest).filterMap (fun k =>
          if effGet (some ((k₀, v₀) :: rest)) k = Value.none then Option.none
          else some (k, effGet (some ((k₀, v₀) :: rest)) k)) =
          (keysOf rest).filterMap (fun k =>
          if effGet (some rest) k = Value.none then Option.none
          else some (k, effGet (some rest) k)) from
            filterMap_congr_mem (by simpa [keysOf] using heff),
        ih hnd.2]
      simp [List.filter_cons, hv]

/-- Claim C4, amended: in the Match-block comparison a criterion present
on exactly one side is diffed against an empty settings map, and every
key of the present side's settings WHOSE VALUE IS NOT `None` is
classified wholly as missing (criterion only in target) or wholly as
extra (criterion only in actual), while keys valued `None` are silently
omitted; the one-sided criterion never contributes to the other two
result lists. -/
theorem C4_one_sided_criterion (ams tms : List MatchBlock) (c : String)
    (s : List (String × Value)) (hnd : (keysOf s).Nodup) :
    (dictGet (blockMap ams) c = Option.none →
     dictGet (blockMap tms) c = some s →
     ((s.filter (fun p => !(p.2 == Value.none)) ≠ [] →
        MatchBlock.mk c (s.filter (fun p => !(p.2 == Value.none))) ∈
          (compare_match_block_lists ams tms).2.1) ∧
      (s.filter (fun p => !(p.2 == Value.none)) = [] →
        ∀ b ∈ (compare_match_block_lists ams tms).2.1, b.criterium ≠ c) ∧
      (∀ b ∈ (compare_match_block_lists ams tms).1, b.criterium ≠ c) ∧
      (∀ b ∈ (compare_match_block_lists ams tms).2.2, b.criterium ≠ c))) ∧
    (dictGet (blockMap ams) c = some s →
     dictGet (blockMap tms) c = Option.none →
     ((s.filter (fun p => !(p.2 == Value.none)) ≠ [] →
        MatchBlock.mk c (s.filter (fun p => !(p.2 == Value.none))) ∈
          (compare_match_block_lists ams tms).2.2) ∧
      (s.filter (fun p => !(p.2 == Value.none)) = [] →
        ∀ b ∈ (compare_match_block_lists ams tms).2.2, b.criterium ≠ c) ∧
      (∀ b ∈ (compare_match_block_lists ams tms).1, b.criterium ≠ c) ∧
      (∀ b ∈ (compare_match_block_lists ams tms).2.1, b.criterium ≠ c))) := by
  have hcmb : compare_match_block_lists ams tms =
      compare_criteria_loop (blockMap ams) (blockMap tms)
        (pyUnion (keysOf (blockMap ams)) (keysOf (blockMap tms))) := rfl
  rw [hcmb, compare_criteria_loop_eq]
  constructor
  · intro hA hT
    have hX : compare_settings_loop (dictGet (blockMap ams) c) (dictGet (blockMap tms) c)
        (pyUnion (keysOfOpt (dictGet (blockMap ams) c)) (keysOfOpt (dictGet (blockMap tms) c))) =
        ([], s.filter (fun p => !(p.2 == Value.none)), []) := by
      rw [hA, hT]
      have hu : pyUnion (keysOfOpt (Option.none : Option (List (String × Value))))
          (keysOfOpt (some s)) = keysOf s := pyUnion_nil_left (keysOf s)
      rw [hu, compare_settings_loop_left_none, keys_filterMap_eff s hnd]
    have hcmem : c ∈ pyUnion (keysOf (blockMap ams)) (keysOf (blockMap tms)) :=
      mem_pyUnion_right _ (keysOf_mem_of_dictGet hT) (not_mem_keys_of_dictGet_none hA)
    refine ⟨fun hne => ?_, fun hnil b hb hbc => ?_, fun b hb hbc => ?_, fun b hb hbc => ?_⟩
    · refine List.mem_filterMap.mpr ⟨c, hcmem, ?_⟩
      dsimp only
      rw [hX]
      exact if_neg hne
    · have hm := block_filterMap_mem (fun c' =>
        (compare_settings_loop (dictGet (blockMap ams) c') (dictGet (blockMap tms) c')
          (pyUnion (keysOfOpt (dictGet (blockMap ams) c'))
            (keysOfOpt (dictGet (blockMap tms) c')))).2.1) hb
      rw [hbc] at hm
      dsimp only at hm
      rw [hX] at hm
      exact hm.2.1 hnil
    · have hm := block_filterMap_mem (fun c' =>
        (compare_settings_loop (dictGet (blockMap ams) c') (dictGet (blockMap tms) c')
          (pyUnion (keysOfOpt (dictGet (blockMap ams) c'))
            (keysOfOpt (dictGet (blockMap tms) c')))).1) hb
      rw [hbc] at hm
      dsimp only at hm
      rw [hX] at hm
      exact hm.2.1 rfl
    · have hm := block_filterMap_mem (fun c' =>
        (compare_settings_loop (dictGet (blockMap ams) c') (dictGet (blockMap tms) c')
          (pyUnion (keysOfOpt (dictGet (blockMap ams) c'))
            (keysOfOpt (dictGet (blockMap tms) c')))).2.2) hb
      rw [hbc] at hm
      dsimp only at hm
      rw [hX] at hm
      exact hm.2.1 rfl
  · intro hA hT
    have hX : compare_settings_loop (dictGet (blockMap ams) c) (dictGet (blockMap tms) c)
        (pyUnion (keysOfOpt (dictGet (blockMap ams) c)) (keysOfOpt (dictGet (blockMap tms) c))) =
        ([], [], s.filter (fun p => !(p.2 == Value.none))) := by
      rw [hA, hT]
      have hu : pyUnion (keysOfOpt (some s))
          (keysOfOpt (Option.none : Option (List (String × Value)))) = keysOf s := by
        simp [pyUnion, keysOfOpt]
      rw [hu, compare_settings_loop_right_none, keys_filterMap_eff s hnd]
    have hcmem : c ∈ pyUnion (keysOf (blockMap ams)) (keysOf (blockMap tms)) :=
      mem_pyUnion_left _ (keysOf_mem_of_dictGet hA)
    refine ⟨fun hne => ?_, fun hnil b hb hbc => ?_, fun b hb hbc => ?_, fun b hb hbc => ?_⟩
    · refine List.mem_filterMap.mpr ⟨c, hcmem, ?_⟩
      dsimp only
      rw [hX]
      exact if_neg hne
    · have hm := block_filterMap_mem (fun c' =>
        (compare_settings_loop (dictGet (blockMap ams) c') (dictGet (blockMap tms) c')
          (pyUnion (keysOfOpt (dictGet (blockMap ams) c'))
            (keysOfOpt (dictGet (blockMap tms) c')))).2.2) hb
      rw [hbc] at hm
      dsimp only at hm
      rw [hX] at hm
      exact hm.2.1 hnil
    · have hm := block_filterMap_mem (fun c' =>
        (compare_settings_loop (dictGet (blockMap ams) c') (dictGet (blockMap tms) c')
          (pyUnion (keysOfOpt (dictGet (blockMap ams) c'))
            (keysOfOpt (dictGet (blockMap tms) c')))).1) hb
      rw [hbc] at hm
      dsimp only at hm
      rw [hX] at hm
      exact hm.2.1 rfl
    · have hm := block_filterMap_mem (fun c' =>
        (compare_settings_loop (dictGet (blockMap ams) c') (dictGet (blockMap tms) c')
          (pyUnion (keysOfOpt (dictGet (blockMap ams) c'))
            (keysOfOpt (dictGet (blockMap tms) c')))).2.1) hb
      rw [hbc] at hm
      dsimp only at hm
      rw [hX] at hm
      exact hm.2.1 rfl

/-- Claim C4, witness for the amended statement: a target-only criterion
with a `False`-valued key and a `None`-valued key yields a missing block
holding exactly the `False`-valued key. -/
theorem C4_one_sided_criterion_witness :
    MatchBlock.mk "c" [("K", Value.bool false)] ∈
      (compare_match_block_lists []
        [MatchBlock.mk "c" [("K", Value.bool false), ("L", Value.none)]]).2.1 :=
  ((C4_one_sided_criterion []
    [MatchBlock.mk "c" [("K", Value.bool false), ("L", Value.none)]] "c"
    [("K", Value.bool false), ("L", Value.none)] (by decide)).1
    (by decide) (by decide)).1 (by decide)

/-- Claim C10: in the Match-block comparison a setting whose value `is
None` on a side is treated exactly like an absent key on that side
(`settings.get(key)` returns Python `None` in both cases): when the
effective value is `None` on both sides the key appears in none of that
criterion's three result blocks — not even in `matching`; in particular
a setting present only with value `None` is never reported as missing
or extra.  The flat-key comparison differs: a non-`Match` key valued
`None` in both trees is reported as matching (with value `None`), since
the flat loop compares with `==` and has no `is not None` guard. -/
theorem C10_none_like_absent (ams tms : List MatchBlock)
    (aDir tDir : List (String × Value)) (c k q : String)
    (hq : q ≠ "Match") (hnd : (keysOf tDir).Nodup)
    (ha : effGet (dictGet (blockMap ams) c) k = Value.none)
    (ht : effGet (dictGet (blockMap tms) c) k = Value.none)
    (hqa : dictGet aDir q = some Value.none)
    (hqt : dictGet tDir q = some Value.none) :
    (∀ b ∈ (compare_match_block_lists ams tms).1, b.criterium = c →
      dictGet b.settings k = Option.none) ∧
    (∀ b ∈ (compare_match_block_lists ams tms).2.1, b.criterium = c →
      dictGet b.settings k = Option.none) ∧
    (∀ b ∈ (compare_match_block_lists ams tms).2.2, b.criterium = c →
      dictGet b.settings k = Option.none) ∧
    dictGet (compare (Config.mk aDir ams) (Config.mk tDir tms)).1.directives q =
      some Value.none ∧
    dictGet (compare (Config.mk aDir ams) (Config.mk tDir tms)).2.1.directives q =
      Option.none ∧
    dictGet (compare (Config.mk aDir ams) (Config.mk tDir tms)).2.2.directives q =
      Option.none := by
  have hcmb : compare_match_block_lists ams tms =
      compare_criteria_loop (blockMap ams) (blockMap tms)
        (pyUnion (keysOf (blockMap ams)) (keysOf (blockMap tms))) := rfl
  have hsl := compare_settings_loop_get_none (dictGet (blockMap ams) c)
    (dictGet (blockMap tms) c) k ha ht
    (pyUnion (keysOfOpt (dictGet (blockMap ams) c)) (keysOfOpt (dictGet (blockMap tms) c)))
  refine ⟨?_, ?_, ?_, ?_⟩
  · intro b hb hbc
    rw [hcmb, compare_criteria_loop_eq] at hb
    have hm := block_filterMap_mem (fun c' =>
      (compare_settings_loop (dictGet (blockMap ams) c') (dictGet (blockMap tms) c')
        (pyUnion (keysOfOpt (dictGet (blockMap ams) c'))
          (keysOfOpt (dictGet (blockMap tms) c')))).1) hb
    rw [hbc] at hm
    dsimp only at hm
    rw [hm.2.2]
    exact hsl.1
  · intro b hb hbc
    rw [hcmb, compare_criteria_loop_eq] at hb
    have hm := block_filterMap_mem (fun c' =>
      (compare_settings_loop (dictGet (blockMap ams) c') (dictGet (blockMap tms) c')
        (pyUnion (keysOfOpt (dictGet (blockMap ams) c'))
          (keysOfOpt (dictGet (blockMap tms) c')))).2.1) hb
    rw [hbc] at hm
    dsimp only at hm
    rw [hm.2.2]
    exact hsl.2.1
  · intro b hb hbc
    rw [hcmb, compare_criteria_loop_eq] at hb
    have hm := block_filterMap_mem (fun c' =>
      (compare_settings_loop (dictGet (blockMap ams) c') (dictGet (blockMap tms) c')
        (pyUnion (keysOfOpt (dictGet (blockMap ams) c'))
          (keysOfOpt (dictGet (blockMap tms) c')))).2.2) hb
    rw [hbc] at hm
    dsimp only at hm
    rw [hm.2.2]
    exact hsl.2.2
  · exact (compare_flat_get (Config.mk aDir ams) (Config.mk tDir tms) q hq hnd).2.2.2
      Value.none Value.none hqa hqt rfl

/-- Claim C10, witness: actual has the block setting `K = None`, the
target lacks the criterion, so `K` shows up in no result block for that
criterion; the flat key `N`, `None` in both trees, matches. -/
theorem C10_none_like_absent_witness :
    (∀ b ∈ (compare_match_block_lists [MatchBlock.mk "c" [("K", Value.none)]] []).1,
      b.criterium = "c" → dictGet b.settings "K" = Option.none) ∧
    (∀ b ∈ (compare_match_block_lists [MatchBlock.mk "c" [("K", Value.none)]] []).2.1,
      b.criterium = "c" → dictGet b.settings "K" = Option.none) ∧
    (∀ b ∈ (compare_match_block_lists [MatchBlock.mk "c" [("K", Value.none)]] []).2.2,
      b.criterium = "c" → dictGet b.settings "K" = Option.none) ∧
    dictGet (compare
        (Config.mk [("N", Value.none)] [MatchBlock.mk "c" [("K", Value.none)]])
        (Config.mk [("N", Value.none)] [])).1.directives "N" = some Value.none ∧
    dictGet (compare
        (Config.mk [("N", Value.none)] [MatchBlock.mk "c" [("K", Value.none)]])
        (Config.mk [("N", Value.none)] [])).2.1.directives "N" = Option.none ∧
    dictGet (compare
        (Config.mk [("N", Value.none)] [MatchBlock.mk "c" [("K", Value.none)]])
        (Config.mk [("N", Value.none)] [])).2.2.directives "N" = Option.none :=
  C10_none_like_absent [MatchBlock.mk "c" [("K", Value.none)]] []
    [("N", Value.none)] [("N", Value.none)] "c" "K" "N"
    (by decide) (by decide) (by decide) (by decide) (by decide) (by decide)

theorem pyUnion_self (xs : List String) : pyUnion xs xs = xs := by
  rw [pyUnion, List.filter_eq_nil_iff.mpr (fun a ha => by simp [ha]), List.append_nil]

/-- Iterating the target loop over entries the actual dict reproduces
exactly (as with identical inputs) matches everything but `Match`. -/
theorem compare_target_loop_self (aDir : List (String × Value)) :
    ∀ ts, (∀ p ∈ ts, dictGet aDir p.1 = some p.2) →
    compare_target_loop aDir ts = (ts.filter (fun p => !(p.1 == "Match")), [], []) := by
  intro ts h
  induction ts with
  | nil => rfl
  | cons p rest ih =>
    obtain ⟨k₀, v₀⟩ := p
    have hp := h (k₀, v₀) (List.mem_cons_self _ _)
    have ihr := ih (fun q hq => h q (List.mem_cons_of_mem _ hq))
    by_cases hM : k₀ = "Match" <;>
      simp [compare_target_loop, hM, hp, pyEq_refl, ihr, List.filter_cons]

/-- The actual loop is empty when every actual key occurs in the
target. -/
theorem compare_actual_loop_self (tDir : List (String × Value)) :
    ∀ aDir, (∀ p ∈ aDir, hasKey tDir p.1 = true) →
    compare_actual_loop tDir aDir = [] := by
  intro aDir h
  induction aDir with
  | nil => rfl
  | cons p rest ih =>
    obtain ⟨k₀, v₀⟩ := p
    have hp := h (k₀, v₀) (List.mem_cons_self _ _)
    have ihr := ih (fun q hq => h q (List.mem_cons_of_mem _ hq))
    by_cases hM : k₀ = "Match" <;> simp [compare_actual_loop, hM, hp, ihr]

theorem keysOf_map_dictSet (d : List (String × α)) (key : String) (v : α) :
    keysOf (d.map (fun p => if p.1 = key then (key, v) else p)) = keysOf d := by
  induction d with
  | nil => rfl
  | cons p rest ih =>
    simp only [List.map_cons, keysOf] at ih ⊢
    by_cases hp : p.1 = key
    · rw [if_pos hp, ih, hp]
    · rw [if_neg hp, ih]

theorem keysOf_dictSet (d : List (String × α)) (key : String) (v : α) :
    keysOf (dictSet d key v) =
      if hasKey d key then keysOf d else keysOf d ++ [key] := by
  by_cases h : hasKey d key
  · simp [dictSet, h, keysOf_map_dictSet]
  · simp [dictSet, h, keysOf]

theorem dictSet_mem {d : List (String × α)} {key : String} {v : α}
    {q : String × α} (h : q ∈ dictSet d key v) : q ∈ d ∨ q = (key, v) := by
  by_cases hk : hasKey d key
  · rw [dictSet, if_pos hk] at h
    obtain ⟨p, hp, hpq⟩ := List.mem_map.mp h
    by_cases hpk : p.1 = key
    · rw [if_pos hpk] at hpq
      exact Or.inr hpq.symm
    · rw [if_neg hpk] at hpq
      exact Or.inl (hpq ▸ hp)
  · rw [dictSet, if_neg hk] at h
    rcases List.mem_append.mp h with h | h
    · exact Or.inl h
    · exact Or.inr (by simpa using h)

theorem blockMap_keys_nodup_aux (bs : List MatchBlock) :
    ∀ d : List (String × List (String × Value)), (keysOf d).Nodup →
    (keysOf (bs.foldl (fun m b => dictSet m b.criterium b.settings) d)).Nodup := by
  induction bs with
  | nil => exact fun d hd => hd
  | cons b rest ih =>
    intro d hd
    refine ih (dictSet d b.criterium b.settings) ?_
    rw [keysOf_dictSet]
    by_cases h : hasKey d b.criterium
    · rwa [if_pos h]
    · rw [if_neg h]
      have hc : b.criterium ∉ keysOf d := by
        refine not_mem_keys_of_dictGet_none ?_
        rcases hg : dictGet d b.criterium with _ | w
        · rfl
        · simp [hasKey, hg] at h
      exact List.Nodup.append hd (List.nodup_singleton _)
        (fun a ha hb => hc ((List.mem_singleton.mp hb) ▸ ha))

theorem blockMap_keys_nodup (bs : List MatchBlock) :
    (keysOf (blockMap bs)).Nodup :=
  blockMap_keys_nodup_aux bs [] (by simp [keysOf])

theorem mem_blockMap_aux (bs : List MatchBlock) :
    ∀ (d : List (String × List (String × Value)))
      (p : String × List (String × Value)),
    p ∈ bs.foldl (fun m b => dictSet m b.criterium b.settings) d →
    p ∈ d ∨ ∃ b ∈ bs, b.criterium = p.1 ∧ b.settings = p.2 := by
  induction bs with
  | nil => exact fun d p hp => Or.inl hp
  | cons b rest ih =>
    intro d p hp
    rcases ih (dictSet d b.criterium b.settings) p hp with h | h
    · rcases dictSet_mem h with h | h
      · exact Or.inl h
      · exact Or.inr ⟨b, List.mem_cons_self _ _, by rw [h], by rw [h]⟩
    · obtain ⟨b', hb', hc', hs'⟩ := h
      exact Or.inr ⟨b', List.mem_cons_of_mem _ hb', hc', hs'⟩

theorem mem_blockMap {bs : List MatchBlock} {p : String × List (String × Value)}
    (hp : p ∈ blockMap bs) : ∃ b ∈ bs, b.criterium = p.1 ∧ b.settings = p.2 := by
  rcases mem_blockMap_aux bs [] p hp with h | h
  · cases h
  · exact h

theorem filterMap_keys_eq {α β : Type} (d : List (String × α))
    (F : String → Option β) (G : String × α → Option β)
    (h : ∀ p ∈ d, F p.1 = G p) :
    (keysOf d).filterMap F = d.filterMap G := by
  induction d with
  | nil => rfl
  | cons p rest ih =>
    have ih' := ih (fun q hq => h q (List.mem_cons_of_mem _ hq))
    have hp := h p (List.mem_cons_self _ _)
    simp only [keysOf, List.map_cons, List.filterMap_cons, hp] at ih' ⊢
    rw [ih']

/-- Claim C6, amended: `compare(A, A)` always yields empty
`missing_from_actual` and `extra_in_actual`, and `matching` equals A's
comparable content UP TO the comparator's `None` handling: all of A's
non-`Match` flat keys with their values (a flat `None` value matches
itself), plus, per distinct criterion (duplicate criteria collapse
last-wins, as in the comparator's criterion map), the block's settings
restricted to non-`None` values, blocks with no such setting being
omitted. -/
theorem C6_compare_self (A : Config) (hnd : (keysOf A.directives).Nodup)
    (hbs : ∀ b ∈ A.matchBlocks, (keysOf b.settings).Nodup) :
    compare A A =
      (Config.mk (A.directives.filter (fun p => !(p.1 == "Match")))
        ((blockMap A.matchBlocks).filterMap (fun p =>
          if p.2.filter (fun q => !(q.2 == Value.none)) = [] then Option.none
          else some (MatchBlock.mk p.1 (p.2.filter (fun q => !(q.2 == Value.none)))))),
       Config.mk [] [], Config.mk [] []) := by
  have hflat := compare_target_loop_self A.directives A.directives
    (fun p hp => dictGet_of_mem_nodup hnd hp)
  have hextra := compare_actual_loop_self A.directives A.directives
    (fun p hp => hasKey_of_mem (show (p.1, p.2) ∈ A.directives from hp))
  have hbn := blockMap_keys_nodup A.matchBlocks
  have hset : ∀ p ∈ blockMap A.matchBlocks,
      compare_settings_loop (dictGet (blockMap A.matchBlocks) p.1)
        (dictGet (blockMap A.matchBlocks) p.1)
        (pyUnion (keysOfOpt (dictGet (blockMap A.matchBlocks) p.1))
          (keysOfOpt (dictGet (blockMap A.matchBlocks) p.1))) =
      (p.2.filter (fun q => !(q.2 == Value.none)), [], []) := by
    intro p hp
    have hg : dictGet (blockMap A.matchBlocks) p.1 = some p.2 :=
      dictGet_of_mem_nodup hbn (show (p.1, p.2) ∈ blockMap A.matchBlocks from hp)
    obtain ⟨b, hb, hbc, hbset⟩ := mem_blockMap hp
    have hnds : (keysOf p.2).Nodup := by
      rw [← hbset]
      exact hbs b hb
    rw [hg]
    have hu : pyUnion (keysOfOpt (some p.2)) (keysOfOpt (some p.2)) = keysOf p.2 :=
      pyUnion_self (keysOf p.2)
    rw [hu, compare_settings_loop_same, keys_filterMap_eff p.2 hnds]
  have hblocks : compare_match_block_lists A.matchBlocks A.matchBlocks =
      ((blockMap A.matchBlocks).filterMap (fun p =>
        if p.2.filter (fun q => !(q.2 == Value.none)) = [] then Option.none
        else some (MatchBlock.mk p.1 (p.2.filter (fun q => !(q.2 == Value.none))))),
       [], []) := by
    rw [show compare_match_block_lists A.matchBlocks A.matchBlocks =
        compare_criteria_loop (blockMap A.matchBlocks) (blockMap A.matchBlocks)
          (pyUnion (keysOf (blockMap A.matchBlocks)) (keysOf (blockMap A.matchBlocks)))
        from rfl,
      compare_criteria_loop_eq, pyUnion_self]
    refine Prod.ext ?_ (Prod.ext ?_ ?_)
    · refine filterMap_keys_eq (blockMap A.matchBlocks) _ _ (fun p hp => ?_)
      dsimp only
      rw [hset p hp]
    · refine List.filterMap_eq_nil_iff.mpr (fun c hc => ?_)
      obtain ⟨p, hp, hpk⟩ := List.mem_map.mp hc
      dsimp only
      rw [← hpk, hset p hp]
      simp
    · refine List.filterMap_eq_nil_iff.mpr (fun c hc => ?_)
      obtain ⟨p, hp, hpk⟩ := List.mem_map.mp hc
      dsimp only
      rw [← hpk, hset p hp]
      simp
  have hc : compare A A =
      (Config.mk (compare_target_loop A.directives A.directives).1
        (compare_match_block_lists A.matchBlocks A.matchBlocks).1,
       Config.mk (compare_target_loop A.directives A.directives).2.1
        (compare_match_block_lists A.matchBlocks A.matchBlocks).2.1,
       Config.mk ((compare_target_loop A.directives A.directives).2.2 ++
          compare_actual_loop A.directives A.directives)
        (compare_match_block_lists A.matchBlocks A.matchBlocks).2.2) := rfl
  rw [hc, hflat, hextra, hblocks]
  simp

/-- Claim C6, witness: a concrete tree with a flat key, a boolean block
setting and a `None` block setting. -/
theorem C6_compare_self_witness :
    compare
        (Config.mk [("Port", Value.int 22)]
          [MatchBlock.mk "c" [("P", Value.bool true), ("Q", Value.none)]])
        (Config.mk [("Port", Value.int 22)]
          [MatchBlock.mk "c" [("P", Value.bool true), ("Q", Value.none)]]) =
      (Config.mk [("Port", Value.int 22)]
        [MatchBlock.mk "c" [("P", Value.bool true)]],
       Config.mk [] [], Config.mk [] []) := by
  have h := C6_compare_self
    (Config.mk [("Port", Value.int 22)]
      [MatchBlock.mk "c" [("P", Value.bool true), ("Q", Value.none)]])
    (by decide) (by decide)
  rw [h]
  decide

/-- A key already present in the accumulator survives the first-wins
merge with its value untouched. -/
theorem mergeFirstWins_get_left :
    ∀ (new d : List (String × Value)) {k : String} {v : Value},
    dictGet d k = some v → dictGet (mergeFirstWins d new) k = some v := by
  intro new
  induction new with
  | nil =>
    intro d k v h
    exact h
  | cons kv rest ih =>
    intro d k v h
    show dictGet (mergeFirstWins (if hasKey d kv.1 then d else d ++ [kv]) rest) k = some v
    by_cases hk : hasKey d kv.1 = true
    · rw [if_pos hk]
      exact ih d h
    · rw [if_neg hk]
      exact ih _ (dictGet_append_left _ h)

/-- A key absent from the accumulator is looked up in the merged-in
dict (its first occurrence wins). -/
theorem mergeFirstWins_get_of_none :
    ∀ (new d : List (String × Value)) {k : String},
    dictGet d k = Option.none →
    dictGet (mergeFirstWins d new) k = dictGet new k := by
  intro new
  induction new with
  | nil =>
    intro d k h
    show dictGet d k = dictGet ([] : List (String × Value)) k
    rw [h]
    rfl
  | cons kv rest ih =>
    intro d k h
    obtain ⟨k₁, v₁⟩ := kv
    show dictGet (mergeFirstWins (if hasKey d k₁ then d else d ++ [(k₁, v₁)]) rest) k =
      dictGet ((k₁, v₁) :: rest) k
    by_cases hd : k₁ = k
    · have hk : ¬ (hasKey d k₁ = true) := by
        simp [hasKey, hd, h]
      rw [if_neg hk]
      have hget : dictGet (d ++ [(k₁, v₁)]) k = some v₁ := by
        rw [dictGet_append_right _ h]
        simp [dictGet, hd]
      rw [mergeFirstWins_get_left rest _ hget]
      simp [dictGet, hd]
    · by_cases hk : hasKey d k₁ = true
      · rw [if_pos hk, ih d h]
        simp [dictGet, hd]
      · rw [if_neg hk]
        have h' : dictGet (d ++ [(k₁, v₁)]) k = Option.none := by
          rw [dictGet_append_right _ h]
          simp [dictGet, hd]
        rw [ih _ h']
        simp [dictGet, hd]

/-- The first-wins merge never introduces a duplicate key. -/
theorem mergeFirstWins_keys_nodup :
    ∀ (new d : List (String × Value)), (keysOf d).Nodup →
    (keysOf (mergeFirstWins d new)).Nodup := by
  intro new
  induction new with
  | nil => exact fun d h => h
  | cons kv rest ih =>
    intro d h
    show (keysOf (mergeFirstWins (if hasKey d kv.1 then d else d ++ [kv]) rest)).Nodup
    by_cases hk : hasKey d kv.1 = true
    · rw [if_pos hk]
      exact ih d h
    · rw [if_neg hk]
      refine ih _ ?_
      rw [show keysOf (d ++ [kv]) = keysOf d ++ [kv.1] from by simp [keysOf]]
      refine List.Nodup.append h (List.nodup_singleton _) (fun a ha hb => ?_)
      have haeq : a = kv.1 := List.mem_singleton.mp hb
      rw [haeq] at ha
      have hnone : dictGet d kv.1 = Option.none := by
        rcases hg : dictGet d kv.1 with _ | w
        · rfl
        · simp [hasKey, hg] at hk
      exact not_mem_keys_of_dictGet_none hnone ha

/-- Claim C7: Include resolution is first-definition-wins across the
whole inclusion chain.  For an `Include` pattern matching the two
regular files `f1`, `f2` (in glob order) whose parses define the same
key `k` with different values, the combined include result records the
first file's value for `k`, the second file's value appears nowhere
under `k`, and a directive of the parent file recorded before the
Include line (already in `parsed_config` when `_handle_include_directive`
merges) keeps its value against everything pulled in by the Include. -/
theorem C7_include_first_wins (fs : FS) (n : Nat) (pat f1 f2 k : String)
    (v1 v2 : Value)
    (hg : fs.glob pat = [f1, f2])
    (h1f : fs.isFile f1 = true) (h2f : fs.isFile f2 = true)
    (h1 : dictGet (parse_ssh_config_lines fs n
      (cleanse_lines (fs.readLines f1))).directives k = some v1)
    (_h2 : dictGet (parse_ssh_config_lines fs n
      (cleanse_lines (fs.readLines f2))).directives k = some v2)
    (hne : v1 ≠ v2) :
    dictGet (parse_included_files fs (parse_ssh_config_lines fs n) pat).directives k
      = some v1 ∧
    (k, v2) ∉ (parse_included_files fs (parse_ssh_config_lines fs n) pat).directives ∧
    (∀ (parsed : List (String × Value)) (vp : Value), dictGet parsed k = some vp →
      dictGet (mergeFirstWins parsed
        (parse_included_files fs (parse_ssh_config_lines fs n) pat).directives) k
        = some vp) := by
  have hif : parse_included_files fs (parse_ssh_config_lines fs n) pat =
      Config.mk
        (mergeFirstWins
          (mergeFirstWins []
            (parse_ssh_config_lines fs n (cleanse_lines (fs.readLines f1))).directives)
          (parse_ssh_config_lines fs n (cleanse_lines (fs.readLines f2))).directives)
        (([] ++ (parse_ssh_config_lines fs n (cleanse_lines (fs.readLines f1))).matchBlocks) ++
          (parse_ssh_config_lines fs n (cleanse_lines (fs.readLines f2))).matchBlocks) := by
    rw [parse_included_files, hg]
    simp [h1f, h2f]
  have hd1 : dictGet (mergeFirstWins []
      (parse_ssh_config_lines fs n (cleanse_lines (fs.readLines f1))).directives) k
      = some v1 := by
    rw [mergeFirstWins_get_of_none _ [] rfl]
    exact h1
  have hnod1 : (keysOf (mergeFirstWins []
      (parse_ssh_config_lines fs n (cleanse_lines (fs.readLines f1))).directives)).Nodup :=
    mergeFirstWins_keys_nodup _ [] (by simp [keysOf])
  have hd2 : dictGet (parse_included_files fs (parse_ssh_config_lines fs n) pat).directives k
      = some v1 := by
    rw [hif]
    exact mergeFirstWins_get_left _ _ hd1
  have hnod2 : (keysOf (parse_included_files fs
      (parse_ssh_config_lines fs n) pat).directives).Nodup := by
    rw [hif]
    exact mergeFirstWins_keys_nodup _ _ hnod1
  refine ⟨hd2, fun hm => ?_, fun parsed vp hvp => mergeFirstWins_get_left _ _ hvp⟩
  have h' := dictGet_of_mem_nodup hnod2 hm
  rw [hd2] at h'
  exact hne (Option.some.inj h')

/-- Claim C7, witness: `demoFS`'s pattern matches two files both
defining `PubkeyAuthentication` (first `no`, then `yes`): the combined
include result keeps `False` and nowhere holds `True` for that key. -/
theorem C7_include_first_wins_witness :
    dictGet (parse_included_files demoFS (parse_ssh_config_lines demoFS 1)
        "sshd_config.d").directives "PubkeyAuthentication" =
      some (Value.bool false) ∧
    ("PubkeyAuthentication", Value.bool true) ∉
      (parse_included_files demoFS (parse_ssh_config_lines demoFS 1)
        "sshd_config.d").directives := by
  have h := C7_include_first_wins demoFS 1 "sshd_config.d" "a.conf" "b.conf"
    "PubkeyAuthentication" (Value.bool false) (Value.bool true)
    (by decide) (by decide) (by decide) (by decide) (by decide) (by decide)
  exact ⟨h.1, h.2.1⟩

/-- Claim C9: a sanitized generic directive line consisting of exactly
one token (its lowered directive word being neither `subsystem` nor
`acceptenv`) yields, in sshd.py, the key mapped to Python `None` — the
"present, no value" sentinel — and, in the ssh.py variant, the key
mapped to `True`; under Python `==`, either sentinel is distinct from
the empty string and from boolean `False`. -/
theorem C9_single_token_sentinel (line d k : String)
    (hd : pySplitWs (pyLower line) 1 = [d])
    (h1 : pySplitWs line 1 = [k])
    (hsub : d ≠ "subsystem") (hacc : d ≠ "acceptenv") :
    parse_directive_line_sshd line = some (pyStrip k, Value.none) ∧
    parse_directive_line_ssh line = (pyStrip k, Value.bool true) ∧
    pyEq Value.none (Value.str "") = false ∧
    pyEq Value.none (Value.bool false) = false ∧
    pyEq (Value.bool true) (Value.str "") = false ∧
    pyEq (Value.bool true) (Value.bool false) = false := by
  refine ⟨?_, ?_, rfl, rfl, rfl, rfl⟩
  · simp only [parse_directive_line_sshd, hd, List.headD_cons]
    rw [if_neg hsub, if_neg hacc, h1]
  · simp only [parse_directive_line_ssh, hd, List.headD_cons]
    rw [if_neg hsub, if_neg hacc, h1]

/-- Claim C9, witness at the test line `UsePAM`. -/
theorem C9_single_token_sentinel_witness :
    parse_directive_line_sshd "UsePAM" = some (pyStrip "UsePAM", Value.none) ∧
    parse_directive_line_ssh "UsePAM" = (pyStrip "UsePAM", Value.bool true) ∧
    pyEq Value.none (Value.str "") = false ∧
    pyEq Value.none (Value.bool false) = false ∧
    pyEq (Value.bool true) (Value.str "") = false ∧
    pyEq (Value.bool true) (Value.bool false) = false :=
  C9_single_token_sentinel "UsePAM" "usepam" "UsePAM"
    (by decide) (by decide) (by decide) (by decide)

end SCI
